import Mathlib

/-
Verification of the client-side layered-geometry state-synchronization engine of
the NGIAB data-preprocess map front end.

The development shallowly embeds the relevant JavaScript sources:
  * map_app/static/js/main.js (first file variant): the Selection State
    (wb_id_dict), the Layer Registry (registered_layers), the Synchronization
    Engine (update_selected / populate_upstream), the Map Interaction
    Controller (onMapClick, select_wbids_in_vpu) and the legend;
  * the control_panel Settings Store (settings schema, init_values,
    get_setting_value, setup_callback / trigger_callback members).

JavaScript objects are modelled as insertion-ordered association lists; the
Leaflet map surface as a bottom-to-top stack of opaque overlay handles; the
single-threaded event-loop concurrency as explicit atomic steps (one step per
synchronous block: the synchronous prefix of a synchronization pass, and each
fetch-resolution handler), with in-flight requests tracked in the state.
JavaScript exceptions (TypeError) are modelled with Except / Option results.
-/

set_option autoImplicit false

namespace MapApp

/-! ## JavaScript objects as insertion-ordered association lists -/

abbrev Key := String

/-- A JavaScript object's own enumerable string-keyed entries, in insertion
order (the order `Object.entries` / `for ... in` enumerates). -/
abbrev JsObj (α : Type) := List (Key × α)

/-- `o[k]`: first entry whose key is `k` (JS objects keep keys unique). -/
def jget {α : Type} : JsObj α → Key → Option α
  | [], _ => none
  | (k', v') :: t, k => if k' = k then some v' else jget t k

/-- `k in o`. -/
def jhas {α : Type} (o : JsObj α) (k : Key) : Bool :=
  (jget o k).isSome

/-- `o[k] = v`: update in place when the key exists, else append (JS insertion
order semantics). -/
def jset {α : Type} : JsObj α → Key → α → JsObj α
  | [], k, v => [(k, v)]
  | (k', v') :: t, k, v => if k' = k then (k, v) :: t else (k', v') :: jset t k v

/-- `delete o[k]`: drop the entry for `k`. -/
def jdel {α : Type} : JsObj α → Key → JsObj α
  | [], _ => []
  | (k', v') :: t, k => if k' = k then t else (k', v') :: jdel t k

/-- `Object.keys(o)`. -/
def jkeys {α : Type} (o : JsObj α) : List Key :=
  o.map Prod.fst

theorem jget_jset_self {α : Type} (o : JsObj α) (k : Key) (v : α) :
    jget (jset o k v) k = some v := by
  induction o with
  | nil => simp [jset, jget]
  | cons e t ih =>
      by_cases h : e.1 = k
      · simp [jset, jget, h]
      · simp [jset, jget, h, ih]

theorem jget_jset_ne {α : Type} (o : JsObj α) (k k' : Key) (v : α) (h : k' ≠ k) :
    jget (jset o k v) k' = jget o k' := by
  induction o with
  | nil =>
      simp only [jset, jget]
      rw [if_neg (fun hh : k = k' => h hh.symm)]
  | cons e t ih =>
      simp only [jset]
      by_cases he : e.1 = k
      · rw [if_pos he]
        simp only [jget]
        rw [if_neg (fun hh : k = k' => h hh.symm),
          if_neg (fun hh : e.1 = k' => h (hh.symm.trans he))]
      · rw [if_neg he]
        simp only [jget, ih]

theorem jget_mem_keys {α : Type} (o : JsObj α) (k : Key) (v : α)
    (h : jget o k = some v) : k ∈ jkeys o := by
  induction o with
  | nil => simp [jget] at h
  | cons e t ih =>
      by_cases he : e.1 = k
      · simp [jkeys, he]
      · simp only [jget, he, if_false] at h
        simp only [jkeys, List.map_cons, List.mem_cons]
        exact Or.inr (by simpa [jkeys] using ih h)

theorem jget_jdel_ne {α : Type} (o : JsObj α) (k k' : Key) (h : k' ≠ k) :
    jget (jdel o k) k' = jget o k' := by
  induction o with
  | nil => rfl
  | cons e t ih =>
      simp only [jdel]
      by_cases he : e.1 = k
      · rw [if_pos he]
        simp only [jget]
        rw [if_neg (fun hh : e.1 = k' => h (hh.symm.trans he))]
      · rw [if_neg he]
        simp only [jget, ih]

theorem jget_jdel_self {α : Type} (o : JsObj α) (k : Key)
    (h : (jkeys o).Nodup) : jget (jdel o k) k = none := by
  induction o with
  | nil => simp [jdel, jget]
  | cons e t ih =>
      simp only [jkeys, List.map_cons, List.nodup_cons] at h
      by_cases he : e.1 = k
      · subst he
        cases hg : jget t e.1 with
        | none => simp [jdel, hg]
        | some v =>
            exact absurd (by simpa [jkeys] using jget_mem_keys t e.1 v hg) h.1
      · simp only [jdel, he, if_false, jget]
        exact ih (by simpa [jkeys] using h.2)


theorem jkeys_jdel_sublist {α : Type} (o : JsObj α) (k : Key) :
    (jkeys (jdel o k)).Sublist (jkeys o) := by
  induction o with
  | nil => simp [jdel]
  | cons e t ih =>
      by_cases he : e.1 = k
      · simp only [jdel, he, if_true, jkeys, List.map_cons]
        exact (List.sublist_cons_self _ _)
      · simp only [jdel, he, if_false, jkeys, List.map_cons]
        exact List.Sublist.cons₂ _ (by simpa [jkeys] using ih)

theorem jkeys_jdel_nodup {α : Type} (o : JsObj α) (k : Key)
    (h : (jkeys o).Nodup) : (jkeys (jdel o k)).Nodup :=
  (jkeys_jdel_sublist o k).nodup h

theorem jget_append_single {α : Type} (o : JsObj α) (k k' : Key) (v : α) :
    jget (o ++ [(k, v)]) k' =
      ((jget o k').orElse (fun _ => if k = k' then some v else none)) := by
  induction o with
  | nil => simp [jget]
  | cons e t ih =>
      by_cases he : e.1 = k'
      · simp [jget, he]
      · simp [jget, he, ih]

theorem jhas_iff_mem_keys {α : Type} (o : JsObj α) (k : Key) :
    jhas o k = true ↔ k ∈ jkeys o := by
  induction o with
  | nil => simp [jhas, jget, jkeys]
  | cons e t ih =>
      by_cases he : e.1 = k
      · simp [jhas, jget, he, jkeys]
      · simp only [jhas, jget, he, if_false, jkeys, List.map_cons, List.mem_cons]
        rw [← jkeys] at *
        constructor
        · intro h
          exact Or.inr ((ih).1 h)
        · intro h
          rcases h with h | h
          · exact absurd h.symm he
          · exact (ih).2 h

/-! ## The map surface and application state (main.js, first variant)

Overlay handles are opaque: modelled as distinct naturals drawn from a
counter. The Leaflet map surface is the bottom-to-top stack of the handles
currently added to the map: `addTo(map)` appends on top, `removeLayer`
deletes, `bringToFront` moves to the top. -/

/-- Coordinates (a JS `[lat, lng]` pair); never computed on, only stored. -/
abbrev Coord := ℚ × ℚ

/-- A value stored in `registered_layers[name]` (main.js line 12): either the
JS literal `null`, a single Leaflet layer handle, or a per-selection-key
mapping of handles (for the derived layer families). -/
inductive RegVal : Type
  | rnull : RegVal
  | rsingle : Nat → RegVal
  | rkeyed : JsObj (Option Nat) → RegVal
deriving DecidableEq

/-- An in-flight network request issued by the client. -/
inductive Request : Type
  | primary : JsObj Coord → Request
  | upstream : Key → Request
  | interaction : ℚ → ℚ → Request
  | wbids_from_vpu : Key → Request
deriving DecidableEq

/-- Observable events of a run, in program order, used to state ordering and
counting properties (fetch issuance, teardown/seed of derived entries,
overlay installation, synchronization-pass invocation). -/
inductive Event : Type
  | call_update_selected : Event
  | issue_primary : Event
  | teardown_entry : Key → Key → Event
  | seed_entry : Key → Key → Event
  | issue_upstream : Key → Event
  | install_upstream : Key → Key → Event
  | raise_selected : Event
deriving DecidableEq

/-- The module-level mutable state of main.js (first variant) together with
the map surface, the in-flight request set and the event trace.
`need_upstream` and `select_wb_toggle` hold the truthiness of the globals of
the same names (initially `need_upstream` is truthy — the settings lookup for
the undefined path ".select_by_vpu.need_upstream" yields `{}` — and
`select_wb_toggle = !{}` is false). -/
structure AppState : Type where
  wb_id_dict : JsObj Coord := []
  selected_wb_layer : Option Nat := none
  upstream_maps : JsObj (JsObj (Option Nat)) := []
  registered_layers : JsObj RegVal := []
  vpu_selected : JsObj Bool := []
  vpu_wbids : JsObj (JsObj Coord) := []
  need_upstream : Bool := true
  select_wb_toggle : Bool := false
  mouse_on_legend : Bool := false
  lmap : List Nat := []
  next_handle : Nat := 0
  inflight : List Request := []
  events : List Event := []
deriving DecidableEq

/-- The derived layer families (main.js lines 242-247). -/
def layernames : List Key :=
  ["merged_geometry", "merged_tolines", "merged_from_nexus", "nexus_circles"]

/-- The per-key map tracked for a derived family: `upstream_maps[lname]`
(default `[]` stands for the families' maps being created by the ensure step
before any entry access; see `pu_ensure`). -/
def inner_of (s : AppState) (lname : Key) : JsObj (Option Nat) :=
  (jget s.upstream_maps lname).getD []

/-- State effect of `setup_style_update` (main.js lines 30-85): both the
re-registration branch (line 32) and first registration (line 84) store the
given handle under the name; callback registration itself is modelled by the
callback functions below, which read `registered_layers` at invocation
time. -/
def setup_style_update (s : AppState) (layer_name : Key) (layer : RegVal) : AppState :=
  { s with registered_layers := jset s.registered_layers layer_name layer }

/-- `delete registered_layers[lname][key]` for a keyed registry entry
(main.js line 268; after `pu_register` every derived name holds a keyed
mapping, so only the `rkeyed` case is reachable there). -/
def reg_del_inner (r : JsObj RegVal) (lname key : Key) : JsObj RegVal :=
  match jget r lname with
  | some (RegVal.rkeyed m) => jset r lname (RegVal.rkeyed (jdel m key))
  | _ => r

/-- `registered_layers[lname][key] = v` for a keyed registry entry (main.js
lines 277, 304, 317; creates the inner key when absent, as JS assignment
does). -/
def reg_set_inner (r : JsObj RegVal) (lname key : Key) (v : Option Nat) : JsObj RegVal :=
  match jget r lname with
  | some (RegVal.rkeyed m) => jset r lname (RegVal.rkeyed (jset m key v))
  | _ => r

/-- main.js lines 250-252: each derived family name is (re-)registered with a
fresh empty object literal. -/
def pu_register (s : AppState) : AppState :=
  layernames.foldl (fun s l => setup_style_update s l (RegVal.rkeyed [])) s

/-- main.js lines 253-258: create the per-family maps when either side is
missing. -/
def pu_ensure (s : AppState) : AppState :=
  layernames.foldl
    (fun s l =>
      if jhas s.registered_layers l = false ∨ jhas s.upstream_maps l = false then
        { s with
          registered_layers := jset s.registered_layers l (RegVal.rkeyed []),
          upstream_maps := jset s.upstream_maps l [] }
      else s) s

/-- The body of the teardown loop for one stale entry (main.js lines
264-268): remove the overlay from the map when non-null and delete the
tracked entries. -/
def teardown_step (lname key : Key) (value : Option Nat) (s : AppState) : AppState :=
  { s with
    lmap := (match value with
      | some h => s.lmap.erase h
      | none => s.lmap),
    upstream_maps := jset s.upstream_maps lname (jdel (inner_of s lname) key),
    registered_layers := reg_del_inner s.registered_layers lname key,
    events := s.events ++ [Event.teardown_entry lname key] }

/-- main.js lines 262-270, one snapshot entry at a time: a tracked key absent
from `wb_id_dict` is torn down. -/
def teardown_entries (lname : Key) : List (Key × Option Nat) → AppState → AppState
  | [], s => s
  | (key, value) :: es, s =>
      teardown_entries lname es <|
        if jhas s.wb_id_dict key then s
        else teardown_step lname key value s

/-- main.js lines 261-271: the teardown loop over `Object.entries` of one
family's tracked map. -/
def teardown_one (s : AppState) (lname : Key) : AppState :=
  teardown_entries lname (inner_of s lname) s

/-- The teardown pass over all four derived families. -/
def teardown (s : AppState) : AppState :=
  layernames.foldl teardown_one s

/-- The body of the seed loop for one untracked selected key (main.js lines
276-277): create the Pending (`null`) entries. -/
def seed_step (lname key : Key) (s : AppState) : AppState :=
  { s with
    upstream_maps := jset s.upstream_maps lname (inner_of s lname ++ [(key, none)]),
    registered_layers := reg_set_inner s.registered_layers lname key none,
    events := s.events ++ [Event.seed_entry lname key] }

/-- main.js lines 274-280, one `wb_id_dict` entry at a time: a selected key
not yet tracked is seeded as Pending (`null`) in `upstream_maps[lname]` and
`registered_layers[lname]`. -/
def seed_entries (lname : Key) : List (Key × Coord) → AppState → AppState
  | [], s => s
  | (key, _) :: es, s =>
      seed_entries lname es <|
        if jhas (inner_of s lname) key then s
        else seed_step lname key s

/-- main.js lines 273-281: the seed loop for one family. -/
def seed_one (s : AppState) (lname : Key) : AppState :=
  seed_entries lname s.wb_id_dict s

/-- The seed pass over all four derived families. -/
def seed (s : AppState) : AppState :=
  layernames.foldl seed_one s

/-- main.js lines 289-295, one entry of `upstream_maps[layernames[0]]` at a
time: a Pending (`null`) entry causes a per-key fetch to
`/get_upstream_geojson_from_wbids` to be issued. -/
def issue_entries : List (Key × Option Nat) → AppState → AppState
  | [], s => s
  | (key, v) :: es, s =>
      issue_entries es <|
        if v = none then
          { s with
            inflight := s.inflight ++ [Request.upstream key],
            events := s.events ++ [Event.issue_upstream key] }
        else s

/-- The fetch-issuance step of `populate_upstream`: iterate the entries of
`upstream_maps["merged_geometry"]` (`layernames[0]`, main.js line 289). -/
def issue_upstream_fetches (s : AppState) : AppState :=
  issue_entries (inner_of s "merged_geometry") s

/-- The synchronous body of `populate_upstream` (main.js lines 238-295): the
`need_upstream` truthiness guard, registration, map creation, teardown, seed,
the any-family-empty early return (lines 283-287), then fetch issuance. -/
def populate_upstream_sync (s : AppState) : AppState :=
  if s.need_upstream = false then s
  else
    let s := pu_register s
    let s := pu_ensure s
    let s := teardown s
    let s := seed s
    if layernames.any (fun l => (inner_of s l).isEmpty) then s
    else issue_upstream_fetches s

/-- The synchronous body of `update_selected` (main.js lines 198-233): when
the selection is non-empty a single batched request carrying the whole
`wb_id_dict` is issued at once (line 203); when it is empty the primary
overlay is removed; then `populate_upstream` is invoked. (Lines 234-235 run
only after the awaited `populate_upstream` settles and are modelled by
`update_selected_after_await`.) -/
def us_mark (s : AppState) : AppState :=
  { s with events := s.events ++ [Event.call_update_selected] }

/-- main.js lines 200-232: the non-empty branch issues the batched primary
request immediately; the empty branch removes the primary overlay. -/
def us_primary (s : AppState) : AppState :=
  if s.wb_id_dict.isEmpty = false then
    { s with
      inflight := s.inflight ++ [Request.primary s.wb_id_dict],
      events := s.events ++ [Event.issue_primary] }
  else
    match s.selected_wb_layer with
    | some h => { s with lmap := s.lmap.erase h }
    | none => s

def update_selected_sync (s : AppState) : AppState :=
  populate_upstream_sync (us_primary (us_mark s))

/-- main.js line 234: after `await populate_upstream()` the current value of
the `selected_wb_layer` global (possibly still `null`) is registered. -/
def update_selected_after_await (s : AppState) : AppState :=
  setup_style_update s "selected_wb_layer"
    (match s.selected_wb_layer with
     | some h => RegVal.rsingle h
     | none => RegVal.rnull)

/-- The resolution handler of the batched primary fetch (main.js lines
208-224): remove the old primary overlay if any, install a fresh layer for
the response on top of the map, store it in the `selected_wb_layer` global
and register it. -/
def primary_resolve_handler (s : AppState) : AppState :=
  let s :=
    match s.selected_wb_layer with
    | some h => { s with lmap := s.lmap.erase h }
    | none => s
  let h := s.next_handle
  { s with
    selected_wb_layer := some h,
    lmap := s.lmap ++ [h],
    next_handle := h + 1,
    registered_layers := jset s.registered_layers "selected_wb_layer" (RegVal.rsingle h) }

/-- main.js lines 300-302: `layernames.some(v => upstream_maps[v][key])` —
truthy exactly when some family tracks a non-null handle for the key (a
missing entry is `undefined` and `null` is falsy). -/
def upstream_truthy (s : AppState) (key : Key) : Bool :=
  layernames.any fun l =>
    match jget (inner_of s l) key with
    | some (some _) => true
    | _ => false

/-- main.js lines 303-307: null out the key's registry entries and remove its
old overlays from the map. (`map.removeLayer` of a `null` entry is modelled
as a no-op; in reachable states the guard `upstream_truthy` only fires when
the families were installed together, so the entries are uniformly
non-null.) -/
def upstream_clear (s : AppState) (key : Key) : AppState :=
  layernames.foldl
    (fun s l =>
      let s := { s with registered_layers := reg_set_inner s.registered_layers l key none }
      match jget (inner_of s l) key with
      | some (some h) => { s with lmap := s.lmap.erase h }
      | _ => s) s

/-- main.js lines 310-318, one response family at a time: parse the geometry,
build a fresh layer, add it to the map and record the handle in
`upstream_maps[name][key]` and `registered_layers[name][key]`. The response
is modelled by the ordered list of its family names (`Object.entries(data)`),
the geometry payloads being opaque. -/
def upstream_install (key : Key) : List Key → AppState → AppState
  | [], s => s
  | name :: rest, s =>
      upstream_install key rest <|
        let h := s.next_handle
        { s with
          upstream_maps := jset s.upstream_maps name (jset (inner_of s name) key (some h)),
          lmap := s.lmap ++ [h],
          next_handle := h + 1,
          registered_layers := reg_set_inner s.registered_layers name key (some h),
          events := s.events ++ [Event.install_upstream name key] }

/-- The resolution handler of a per-key derived fetch (main.js lines
296-319): clear previously tracked non-null handles for the key, then install
one overlay per returned family. Note there is no `key in wb_id_dict` check
anywhere in the handler. -/
def upstream_resolve_handler (s : AppState) (key : Key) (data : List Key) : AppState :=
  let s := if upstream_truthy s key then upstream_clear s key else s
  upstream_install key data s

/-- The convergence step of a pass (main.js lines 326-331), run after its
`Promise.all` settles: raise the primary overlay — and only it — to the top
of the stack. -/
def raise_selected (s : AppState) : AppState :=
  match s.selected_wb_layer with
  | some h =>
      { s with
        lmap := if h ∈ s.lmap then s.lmap.erase h ++ [h] else s.lmap,
        events := s.events ++ [Event.raise_selected] }
  | none => s

/-- The click-resolution toggle on the Selection State (main.js lines
368-374): a present id is deleted, an absent one inserted with the click
coordinates. -/
def click_toggle (d : JsObj Coord) (wb_id : Key) (lat lng : ℚ) : JsObj Coord :=
  if jhas d wb_id then jdel d wb_id else d ++ [(wb_id, (lat, lng))]

/-- The synchronous part of `onMapClick` (main.js lines 348-365): the
`select_wb_toggle` / `mouse_on_legend` guard, then the
`/handle_map_interaction` fetch is issued. -/
def onMapClick_sync (s : AppState) (lat lng : ℚ) : AppState :=
  if s.select_wb_toggle = false ∨ s.mouse_on_legend then s
  else { s with inflight := s.inflight ++ [Request.interaction lat lng] }

/-- The resolution handler of `/handle_map_interaction` (main.js lines
366-377): toggle the resolved id in `wb_id_dict`, then call
`update_selected` (exactly once). -/
def interaction_resolve_handler (s : AppState) (lat lng : ℚ) (wb_id : Key) : AppState :=
  update_selected_sync
    { s with wb_id_dict := click_toggle s.wb_id_dict wb_id lat lng }

/-- The synchronous part of `select_wbids_in_vpu` (main.js lines 523-557):
when the group is marked active, its cached ids are removed from
`wb_id_dict`, the mark is cleared and the function returns — without calling
`update_selected` (line 536); when inactive, the `/get_wbids_from_vpu` fetch
is issued. -/
def select_wbids_in_vpu_sync (s : AppState) (vpu_code : Key) : AppState :=
  if s.select_wb_toggle then s
  else if jhas s.vpu_selected vpu_code then
    let ids := (jget s.vpu_wbids vpu_code).getD []
    let s := ids.foldl (fun s kv => { s with wb_id_dict := jdel s.wb_id_dict kv.1 }) s
    { s with vpu_selected := jdel s.vpu_selected vpu_code }
  else { s with inflight := s.inflight ++ [Request.wbids_from_vpu vpu_code] }

/-- The resolution handler of `/get_wbids_from_vpu` (main.js lines 543-553):
insert every returned id, cache the group's id set, mark the group active,
then call `update_selected` (exactly once). -/
def vpu_resolve_handler (s : AppState) (vpu_code : Key) (data : JsObj Coord) : AppState :=
  update_selected_sync
    { s with
      wb_id_dict := data.foldl (fun d kv => jset d kv.1 kv.2) s.wb_id_dict,
      vpu_wbids := jset s.vpu_wbids vpu_code data,
      vpu_selected := jset s.vpu_selected vpu_code true }

/-- Settlement of an in-flight per-key derived fetch: the request leaves the
in-flight set and its resolution handler runs atomically. -/
def settle_upstream (s : AppState) (key : Key) (data : List Key) : AppState :=
  upstream_resolve_handler { s with inflight := s.inflight.erase (Request.upstream key) } key data

/-- Settlement of the in-flight batched primary fetch. -/
def settle_primary (s : AppState) (body : JsObj Coord) : AppState :=
  primary_resolve_handler { s with inflight := s.inflight.erase (Request.primary body) }

/-! ## The Layer Registry callbacks (main.js lines 35-77)

JavaScript's `typeof null == "object"` holds, so a `null` single handle
enters the keyed-mapping branch and `("_leaflet_id" in null)` raises a
TypeError. A keyed mapping skips its `null` entries. A missing name returns
early in the style callback; in the toggle callback `map.hasLayer(undefined)`
is false and `map.addLayer(undefined)` raises when the layer is being toggled
on. -/

inductive JsErr : Type
  | typeError : JsErr
deriving DecidableEq

/-- `layer_style_callback` (main.js lines 35-51). `setStyle` does not change
any state tracked by the model, so the interesting content is whether the
callback throws. -/
def layer_style_callback (s : AppState) (layer_name : Key) : Except JsErr AppState :=
  if jhas s.registered_layers layer_name = false then Except.ok s
  else
    match jget s.registered_layers layer_name with
    | some RegVal.rnull => Except.error JsErr.typeError
    | some (RegVal.rkeyed _) => Except.ok s
    | some (RegVal.rsingle _) => Except.ok s
    | none => Except.ok s

/-- `toggle_callback` (main.js lines 53-77): add to / remove from the map
according to the toggle value, skipping `null` entries of a keyed mapping. -/
def layer_toggle_callback (s : AppState) (layer_name : Key) (toggle_val : Bool) :
    Except JsErr AppState :=
  match jget s.registered_layers layer_name with
  | some RegVal.rnull => Except.error JsErr.typeError
  | some (RegVal.rkeyed m) =>
      Except.ok <| m.foldl
        (fun s kv =>
          match kv.2 with
          | none => s
          | some h =>
              if toggle_val = false ∧ h ∈ s.lmap then { s with lmap := s.lmap.erase h }
              else if toggle_val = true ∧ h ∉ s.lmap then { s with lmap := s.lmap ++ [h] }
              else s) s
  | some (RegVal.rsingle h) =>
      Except.ok <|
        if toggle_val = false ∧ h ∈ s.lmap then { s with lmap := s.lmap.erase h }
        else if toggle_val = true ∧ h ∉ s.lmap then { s with lmap := s.lmap ++ [h] }
        else s
  | none =>
      if toggle_val then Except.error JsErr.typeError else Except.ok s

/-! ## The Settings Store (control_panel, part of the control-panel source)

`control_panel.settings` is a static schema tree whose leaves carry a type
tag and a default; `init_values` flattens it into `control_panel.values`, a
flat object keyed by dot-paths that all start with `"."`.
`get_setting_value` (with the default `setting_obj = null`) does exact-path
lookup against `control_panel.values` and otherwise assembles a fresh nested
object from every stored leaf whose path extends the query. -/

/-- A primitive JS value held by a settings leaf (bool / number / string);
numbers appear only as stored data, never computed on. -/
inductive JsVal : Type
  | jb : Bool → JsVal
  | jn : ℚ → JsVal
  | js : String → JsVal
deriving DecidableEq

/-- A node of the `control_panel.settings` schema: an object carrying
`type`/`default` is a leaf; a `type: "group"` object and a plain nested
object both recurse over their other keys. -/
inductive SettingNode : Type
  | leaf : String → JsVal → SettingNode
  | group : List (String × SettingNode) → SettingNode

/-- `String.split(".")` of JS: split on every dot, keeping empty segments. -/
def splitDotAux : List Char → List Char → List String
  | [], acc => [String.mk acc.reverse]
  | c :: cs, acc =>
      if c = '.' then String.mk acc.reverse :: splitDotAux cs []
      else splitDotAux cs (c :: acc)

/-- `key.split(".")`. -/
def splitDot (s : String) : List String :=
  splitDotAux s.data []

mutual

/-- `control_panel.init_values`: walk the schema in key order, recording each
leaf's default under `keystr + "." + key`. -/
def init_values (keystr : String) : List (String × SettingNode) → List (String × JsVal)
  | [] => []
  | (k, n) :: rest => init_node (keystr ++ "." ++ k) n ++ init_values keystr rest

/-- One schema node inside `init_values`. -/
def init_node (cur : String) : SettingNode → List (String × JsVal)
  | SettingNode.leaf _ d => [(cur, d)]
  | SettingNode.group kids => init_values cur kids

end

/-- The `control_panel.settings` schema literal. -/
def control_panel_settings : List (String × SettingNode) :=
  [("layers", SettingNode.group
      [("streetmap", SettingNode.group
          [("toggle", SettingNode.leaf "bool" (JsVal.jb true)),
           ("opacity", SettingNode.leaf "percent" (JsVal.jn 1))]),
       ("waterbasins", SettingNode.group
          [("toggle", SettingNode.leaf "bool" (JsVal.jb true)),
           ("opacity", SettingNode.leaf "percent" (JsVal.jn 1))]),
       ("boundaries_of_vpus", SettingNode.group
          [("toggle", SettingNode.leaf "bool" (JsVal.jb true)),
           ("opacity", SettingNode.leaf "percent" (JsVal.jn 1))])]),
   ("geometries", SettingNode.group
      [("selected_wb_layer", SettingNode.group
          [("toggle", SettingNode.leaf "bool" (JsVal.jb true)),
           ("style", SettingNode.group
              [("opacity", SettingNode.leaf "percent" (JsVal.jn (mkRat 6 10))),
               ("color", SettingNode.leaf "picker" (JsVal.js "#eb34d8")),
               ("fillColor", SettingNode.leaf "picker" (JsVal.js "#e0abff")),
               ("fillOpacity", SettingNode.leaf "percent" (JsVal.jn (mkRat 2 10)))])]),
       ("merged_geometry", SettingNode.group
          [("toggle", SettingNode.leaf "bool" (JsVal.jb true)),
           ("style", SettingNode.group
              [("opacity", SettingNode.leaf "percent" (JsVal.jn (mkRat 6 10))),
               ("color", SettingNode.leaf "picker" (JsVal.js "#3388ff")),
               ("fillColor", SettingNode.leaf "picker" (JsVal.js "#3388ff")),
               ("fillOpacity", SettingNode.leaf "percent" (JsVal.jn (mkRat 2 10)))])]),
       ("merged_tolines", SettingNode.group
          [("toggle", SettingNode.leaf "bool" (JsVal.jb true)),
           ("style", SettingNode.group
              [("opacity", SettingNode.leaf "percent" (JsVal.jn (mkRat 5 10))),
               ("color", SettingNode.leaf "picker" (JsVal.js "#FF0000")),
               ("weight", SettingNode.leaf "number" (JsVal.jn 1))])]),
       ("merged_from_nexus", SettingNode.group
          [("toggle", SettingNode.leaf "bool" (JsVal.jb true)),
           ("style", SettingNode.group
              [("opacity", SettingNode.leaf "percent" (JsVal.jn (mkRat 8 10))),
               ("color", SettingNode.leaf "picker" (JsVal.js "#00FF00")),
               ("weight", SettingNode.leaf "number" (JsVal.jn 2))])]),
       ("nexus_circles", SettingNode.group
          [("toggle", SettingNode.leaf "bool" (JsVal.jb true)),
           ("length", SettingNode.leaf "float" (JsVal.jn (mkRat 25 100))),
           ("style", SettingNode.group
              [("opacity", SettingNode.leaf "percent" (JsVal.jn (mkRat 8 10))),
               ("color", SettingNode.leaf "picker" (JsVal.js "#FFFF00")),
               ("fillColor", SettingNode.leaf "picker" (JsVal.js "#FFFF00")),
               ("fillOpacity", SettingNode.leaf "percent" (JsVal.jn (mkRat 2 10))),
               ("weight", SettingNode.leaf "number" (JsVal.jn 2))])])])]

/-- `control_panel.values` after `control_panel.init_values(control_panel.settings)`. -/
def control_panel_values : List (String × JsVal) :=
  init_values "" control_panel_settings

/-- A node of the freshly assembled nested result object of
`get_setting_value`. -/
inductive JsTree : Type
  | leaf : JsVal → JsTree
  | node : List (String × JsTree) → JsTree

/-- The insertion loop over `remaining_keys` (get_setting_value, inner `for`):
create missing intermediate objects, place the leaf value at the last
segment, never overwrite an existing entry; descending through an existing
primitive (possible only when one stored path strictly extends another)
would apply `in` to a non-object — a TypeError, modelled as `none`. -/
def js_assign : List (String × JsTree) → List String → JsVal → Option (List (String × JsTree))
  | kids, [], _ => some kids
  | kids, k :: rest, v =>
      match jget kids k with
      | none =>
          if rest.isEmpty then some (kids ++ [(k, JsTree.leaf v)])
          else
            match js_assign [] rest v with
            | some sub => some (kids ++ [(k, JsTree.node sub)])
            | none => none
      | some (JsTree.node sub) =>
          match js_assign sub rest v with
          | some sub2 => some (jset kids k (JsTree.node sub2))
          | none => none
      | some (JsTree.leaf _) =>
          if rest.isEmpty then some kids else none

/-- The element-wise comparison `keys[i] == setting_keys[i]` for
`i < keys.length` (get_setting_value's `match` flag). -/
def keys_match : List String → List String → Bool
  | [], _ => true
  | _ :: _, [] => false
  | k :: ks, sk :: sks => if k = sk then keys_match ks sks else false

/-- What `get_setting_value` returns: the stored leaf value on an exact path
match, else the assembled result object. -/
inductive GetResult : Type
  | val : JsVal → GetResult
  | obj : JsTree → GetResult

/-- The main loop of `get_setting_value` over the stored settings, carrying
the partially assembled `result` object; `none` models a thrown
TypeError. -/
def gsv_loop (key : String) (keys : List String) :
    List (String × JsVal) → List (String × JsTree) → Option GetResult
  | [], result => some (GetResult.obj (JsTree.node result))
  | (setting, v) :: rest, result =>
      let setting_keys := (splitDot setting).tail
      if setting_keys.length < keys.length then gsv_loop key keys rest result
      else if key = setting then some (GetResult.val v)
      else if keys_match keys setting_keys then
        match js_assign result (setting_keys.drop keys.length) v with
        | some result2 => gsv_loop key keys rest result2
        | none => none
      else gsv_loop key keys rest result

/-- `keys` as computed at the top of `get_setting_value`: split on dots and
drop a leading empty segment. -/
def query_segs (key : String) : List String :=
  let keys0 := splitDot key
  if keys0.head? = some "" then keys0.tail else keys0

/-- `control_panel.utility.get_setting_value(key)` (the `setting_obj = null`
branch), generalized over the stored values. -/
def get_setting_value_with (values : List (String × JsVal)) (key : String) :
    Option GetResult :=
  gsv_loop key (query_segs key) values []

/-- `control_panel.utility.get_setting_value(key)` against the configured
store. -/
def get_setting_value (key : String) : Option GetResult :=
  get_setting_value_with control_panel_values key

mutual

/-- All leaf paths of a result tree with their values, in construction
order. -/
def tree_paths : JsTree → List (List String × JsVal)
  | JsTree.leaf v => [([], v)]
  | JsTree.node kids => kids_paths kids

/-- `tree_paths` over a node's children. -/
def kids_paths : List (String × JsTree) → List (List String × JsVal)
  | [] => []
  | (k, t) :: rest =>
      (tree_paths t).map (fun pv => (k :: pv.1, pv.2)) ++ kids_paths rest

end

/-- View a lookup result as a leaf value (exact-path case). -/
def asVal : Option GetResult → Option JsVal
  | some (GetResult.val v) => some v
  | _ => none

/-- View a lookup result through the flattened paths of its assembled
object. -/
def resultPaths : Option GetResult → Option (List (List String × JsVal))
  | none => none
  | some (GetResult.val v) => some [([], v)]
  | some (GetResult.obj t) => some (tree_paths t)

/-- Whether a lookup produced an assembled object (not a stored leaf, not a
TypeError). -/
def isObjResult : Option GetResult → Bool
  | some (GetResult.obj _) => true
  | _ => false

/-- Spec-side notion "the leaf lies strictly under the query path": the query
segments are a proper prefix of the leaf's segments. -/
def under_path : List String → List String → Bool
  | [], [] => false
  | [], _ :: _ => true
  | _ :: _, [] => false
  | p :: pre, sq :: segs => if p = sq then under_path pre segs else false

/-- Spec-side description of a group query's content: every stored leaf under
the prefix, keyed by its relative remaining path segments, in store order. -/
def leaves_under (values : List (String × JsVal)) (pre : List String) :
    List (List String × JsVal) :=
  values.filterMap fun sv =>
    let segs := (splitDot sv.1).tail
    if under_path pre segs then some (segs.drop pre.length, sv.2) else none

/-- The strict ancestor paths of the configured schema's leaves (every proper
dot-path prefix of a defined leaf path). -/
def group_query_paths : List String :=
  [".layers", ".layers.streetmap", ".layers.waterbasins",
   ".layers.boundaries_of_vpus",
   ".geometries",
   ".geometries.selected_wb_layer", ".geometries.selected_wb_layer.style",
   ".geometries.merged_geometry", ".geometries.merged_geometry.style",
   ".geometries.merged_tolines", ".geometries.merged_tolines.style",
   ".geometries.merged_from_nexus", ".geometries.merged_from_nexus.style",
   ".geometries.nexus_circles", ".geometries.nexus_circles.style"]

/-- A stored entry "matches" a query when the loop either returns it (exact
string equality) or folds it into the result (segment-wise prefix match). -/
def entry_matches (key setting : String) : Bool :=
  if key = setting then true
  else keys_match (query_segs key) ((splitDot setting).tail)

/-! ## The legend toggle path (main.js updateLegend, lines 89-195)

The legend icon's `onclick` reads the current toggle value and then calls
`control_panel.utility.set_setting_value(...)` (via `set_toggle`, main.js
lines 129-131 and 159-163). `control_panel.utility` carries only the members
assigned in the control-panel source; `set_setting_value` is not among them,
so the call site reads `undefined` and invoking it raises a TypeError. -/

/-- The members assigned on `control_panel.utility` anywhere in the sources. -/
def utility_members : List String :=
  ["create_button", "create_input", "create_label", "create_slider",
   "setup_callback", "trigger_callback", "get_setting_definition",
   "get_setting_value", "setup_group_callback"]

/-- The Settings-Store state a legend click can reach: the stored values and
the log of callback ids fired by `trigger_callback`. -/
structure CPState : Type where
  values : List (String × JsVal) := control_panel_values
  triggered : List String := []
deriving DecidableEq

/-- The legend icon `onclick` handler for a layer name (main.js lines
159-163): read the toggle value, then invoke
`control_panel.utility.set_setting_value`; result is the state as of the
throw (if any) paired with the error. -/
def legend_icon_onclick (cp : CPState) (layer_name : String) : CPState × Option JsErr :=
  match get_setting_value_with cp.values (".geometries." ++ layer_name ++ ".toggle") with
  | none => (cp, some JsErr.typeError)
  | some _ =>
      if ("set_setting_value" ∈ utility_members) then (cp, none)
      else (cp, some JsErr.typeError)

/-! ## Claim C8: Settings Store lookup -/

theorem gsv_loop_no_match (key : String) (values : List (String × JsVal))
    (result : List (String × JsTree))
    (h : ∀ sv ∈ values, entry_matches key sv.1 = false) :
    gsv_loop key (query_segs key) values result =
      some (GetResult.obj (JsTree.node result)) := by
  induction values generalizing result with
  | nil => rfl
  | cons sv rest ih =>
      obtain ⟨setting, v⟩ := sv
      have hm := h (setting, v) (List.mem_cons_self _ _)
      have hne : key ≠ setting := by
        intro hh
        rw [entry_matches, if_pos hh] at hm
        exact absurd hm (by simp)
      have hkm : keys_match (query_segs key) ((splitDot setting).tail) = false := by
        rw [entry_matches, if_neg hne] at hm
        exact hm
      simp only [gsv_loop]
      by_cases hl : ((splitDot setting).tail).length < (query_segs key).length
      · rw [if_pos hl]
        exact ih _ fun x hx => h x (List.mem_cons_of_mem _ hx)
      · rw [if_neg hl, if_neg hne]
        simp only [hkm, Bool.false_eq_true, if_false]
        exact ih _ fun x hx => h x (List.mem_cons_of_mem _ hx)

/-- C8: for the Settings Store lookup with no `setting_obj`, the exact path
of a defined leaf returns the stored leaf value; a proper prefix of defined
leaf paths returns a freshly assembled nested mapping holding exactly the
leaves under that prefix keyed by their relative remaining segments; and a
query matching no stored leaf returns the empty mapping rather than raising
an error. -/
theorem C8_settings_lookup :
    (∀ pv ∈ control_panel_values, asVal (get_setting_value pv.1) = some pv.2) ∧
    (∀ p ∈ group_query_paths,
      resultPaths (get_setting_value p) =
        some (leaves_under control_panel_values (query_segs p)) ∧
      isObjResult (get_setting_value p) = true) ∧
    (∀ values key, (∀ sv ∈ values, entry_matches key sv.1 = false) →
      get_setting_value_with values key = some (GetResult.obj (JsTree.node []))) :=
  ⟨by decide, by decide,
   fun values key h => gsv_loop_no_match key values [] h⟩

/-- C8 witness: the three cases of `C8_settings_lookup` evaluated at concrete
queries. -/
theorem C8_settings_lookup_witness :
    asVal (get_setting_value ".layers.streetmap.toggle") = some (JsVal.jb true) ∧
    resultPaths (get_setting_value ".layers.streetmap") =
      some (leaves_under control_panel_values (query_segs ".layers.streetmap")) ∧
    get_setting_value_with control_panel_values ".no.such.path" =
      some (GetResult.obj (JsTree.node [])) :=
  ⟨C8_settings_lookup.1 (".layers.streetmap.toggle", JsVal.jb true) (by decide),
   (C8_settings_lookup.2.1 ".layers.streetmap" (by decide)).1,
   C8_settings_lookup.2.2 control_panel_values ".no.such.path" (by decide)⟩

/-! ## Claim C7: the click-resolution toggle -/

theorem jdel_append_self {α : Type} (o : JsObj α) (k : Key) (v : α)
    (h : jhas o k = false) : jdel (o ++ [(k, v)]) k = o := by
  induction o with
  | nil => simp [jdel]
  | cons e t ih =>
      by_cases he : e.1 = k
      · simp [jhas, jget, he] at h
      · simp only [List.cons_append, jdel, he, if_false, List.append_eq]
        rw [ih (by simpa [jhas, jget, he] using h)]

theorem jhas_append_single_self {α : Type} (o : JsObj α) (k : Key) (v : α) :
    jhas (o ++ [(k, v)]) k = true := by
  rw [jhas, jget_append_single]
  cases hg : jget o k <;> simp [Option.orElse, hg]

/-- C7 counterexample: with `"wb-1"` already selected at stored coordinate
`(0,0)` and both clicks resolving to `"wb-1"` at `(1,2)`, applying the
click-resolution toggle twice does not return the Selection State to its
prior value: the stored coordinate becomes the click coordinate. -/
theorem C7_counterexample :
    click_toggle (click_toggle [("wb-1", ((0 : ℚ), (0 : ℚ)))] "wb-1" 1 2) "wb-1" 1 2 ≠
      [("wb-1", ((0 : ℚ), (0 : ℚ)))] ∧
    jget (click_toggle (click_toggle [("wb-1", ((0 : ℚ), (0 : ℚ)))] "wb-1" 1 2) "wb-1" 1 2)
      "wb-1" = some (1, 2) ∧
    jget [("wb-1", ((0 : ℚ), (0 : ℚ)))] "wb-1" = some (0, 0) := by
  decide

/-- C7 amended: a single application of the click-resolution toggle inserts
an absent id with the click coordinate and removes a present one; a double
application with both clicks resolving to the same id and coordinates
preserves the key set and every other key's stored coordinate, and restores
the exact prior mapping whenever the id was absent beforehand — when the id
was present, its stored coordinate is replaced by the click coordinate. -/
theorem C7_click_toggle_amended (d : JsObj Coord) (wb_id : Key) (lat lng : ℚ)
    (hnd : (jkeys d).Nodup) :
    (jhas d wb_id = true → click_toggle d wb_id lat lng = jdel d wb_id) ∧
    (jhas d wb_id = false → click_toggle d wb_id lat lng = d ++ [(wb_id, (lat, lng))]) ∧
    (jhas d wb_id = false →
      click_toggle (click_toggle d wb_id lat lng) wb_id lat lng = d) ∧
    (∀ k, k ≠ wb_id →
      jget (click_toggle (click_toggle d wb_id lat lng) wb_id lat lng) k = jget d k) ∧
    (∀ k, jhas (click_toggle (click_toggle d wb_id lat lng) wb_id lat lng) k = jhas d k) ∧
    (jhas d wb_id = true →
      jget (click_toggle (click_toggle d wb_id lat lng) wb_id lat lng) wb_id =
        some (lat, lng)) := by
  have habs : jhas d wb_id = false →
      click_toggle (click_toggle d wb_id lat lng) wb_id lat lng = d := by
    intro h
    have h1 : click_toggle d wb_id lat lng = d ++ [(wb_id, (lat, lng))] := by
      rw [click_toggle, if_neg (by simp [h])]
    rw [h1, click_toggle, if_pos (jhas_append_single_self d wb_id _),
      jdel_append_self d wb_id _ h]
  have hpres : jhas d wb_id = true →
      click_toggle (click_toggle d wb_id lat lng) wb_id lat lng =
        jdel d wb_id ++ [(wb_id, (lat, lng))] := by
    intro h
    have h1 : click_toggle d wb_id lat lng = jdel d wb_id := by
      rw [click_toggle, if_pos h]
    rw [h1, click_toggle,
      if_neg (by simp [jhas, jget_jdel_self d wb_id hnd])]
  refine ⟨fun h => by rw [click_toggle, if_pos h],
    fun h => by rw [click_toggle, if_neg (by simp [h])], habs, ?_, ?_, ?_⟩
  · intro k hk
    cases h : jhas d wb_id with
    | false => rw [habs h]
    | true =>
        rw [hpres h, jget_append_single, jget_jdel_ne d wb_id k hk]
        cases hg : jget d k <;> simp [Option.orElse, hg, Ne.symm hk]
  · intro k
    by_cases hk : k = wb_id
    · rw [hk]
      cases h : jhas d wb_id with
      | false =>
          rw [habs h]
          exact h
      | true =>
          rw [hpres h]
          exact jhas_append_single_self _ _ _
    · cases h : jhas d wb_id with
      | false => rw [habs h]
      | true =>
          rw [jhas, hpres h, jget_append_single, jget_jdel_ne d wb_id k hk]
          cases hg : jget d k <;> simp [jhas, Option.orElse, hg, Ne.symm hk]
  · intro h
    rw [hpres h, jget_append_single, jget_jdel_self d wb_id hnd]
    simp [Option.orElse]

/-- C7 witness: the amended theorem applied to the absent-id case at a
concrete Selection State. -/
theorem C7_click_toggle_amended_witness :
    click_toggle (click_toggle [("wb-0", ((3 : ℚ), (4 : ℚ)))] "wb-1" 1 2) "wb-1" 1 2 =
      [("wb-0", ((3 : ℚ), (4 : ℚ)))] :=
  (C7_click_toggle_amended [("wb-0", (3, 4))] "wb-1" 1 2 (by decide)).2.2.1 (by decide)

/-! ## Claims C9 and C10: callback safety -/

/-- A registry state with a `null` single handle (as registered for
`selected_wb_layer` by `update_selected` while the primary fetch had not yet
resolved) and a keyed derived mapping holding a `null` (Pending) entry and a
resolved handle that is on the map. -/
def c9_state : AppState :=
  { registered_layers :=
      [("selected_wb_layer", RegVal.rnull),
       ("merged_geometry", RegVal.rkeyed [("wb-1", none), ("wb-2", some 5)])],
    lmap := [5] }

/-- C9: the Layer Registry's style and visibility callbacks are not
throw-free for every handle shape: a `null` single handle enters the keyed
branch (`typeof null == "object"`), where `("_leaflet_id" in null)` raises a
TypeError — while keyed mappings skip their `null` entries and an
unregistered name returns early, as the claim describes. -/
theorem C9_null_handle_callback_throws :
    layer_style_callback c9_state "selected_wb_layer" = Except.error JsErr.typeError ∧
    layer_toggle_callback c9_state "selected_wb_layer" true = Except.error JsErr.typeError ∧
    layer_toggle_callback c9_state "selected_wb_layer" false = Except.error JsErr.typeError ∧
    layer_style_callback c9_state "merged_geometry" = Except.ok c9_state ∧
    layer_toggle_callback c9_state "merged_geometry" true = Except.ok c9_state ∧
    layer_style_callback c9_state "never_registered" = Except.ok c9_state :=
  ⟨rfl, rfl, rfl, rfl, rfl, rfl⟩

/-- C10: every legend layer-icon click reaches
`control_panel.utility.set_setting_value`, a member assigned nowhere in the
sources, so the handler raises a TypeError with the Settings Store values
untouched and no callback fired. -/
theorem C10_legend_toggle_throws :
    (∀ cp lname, legend_icon_onclick cp lname = (cp, some JsErr.typeError)) ∧
    "set_setting_value" ∉ utility_members := by
  constructor
  · intro cp lname
    unfold legend_icon_onclick
    cases get_setting_value_with cp.values (".geometries." ++ lname ++ ".toggle") with
    | none => rfl
    | some r => rw [if_neg (by decide)]
  · decide

/-! ## Concrete states and traces for the synchronization-engine claims -/

/-- Occurrences of an element in a list (used to count events). -/
def ev_count (e : Event) : List Event → Nat
  | [] => 0
  | e' :: t => (if e' = e then 1 else 0) + ev_count e t

/-- Position of the first occurrence of an element, counting from the head
(= from the bottom for the map stack; the list's length when absent). -/
def pos_in {α : Type} [DecidableEq α] : List α → α → Nat
  | [], _ => 0
  | y :: t, x => if y = x then 0 else pos_in t x + 1

/-- The keyed registry mapping stored under a derived family name. -/
def reg_inner (r : JsObj RegVal) (lname : Key) : JsObj (Option Nat) :=
  match jget r lname with
  | some (RegVal.rkeyed m) => m
  | _ => []

/-- A state in which `"wb-1"` was deselected (and torn down) while its
derived fetch was still in flight: `wb_id_dict` is empty, the four family
maps exist but track nothing, and the per-key request is pending. -/
def c1_state : AppState :=
  { wb_id_dict := [],
    upstream_maps := [("merged_geometry", []), ("merged_tolines", []),
                      ("merged_from_nexus", []), ("nexus_circles", [])],
    registered_layers := [("merged_geometry", RegVal.rkeyed []),
                          ("merged_tolines", RegVal.rkeyed []),
                          ("merged_from_nexus", RegVal.rkeyed []),
                          ("nexus_circles", RegVal.rkeyed [])],
    inflight := [Request.upstream "wb-1"] }

/-- `c1_state` after the pending fetch for `"wb-1"` resolves. -/
def c1_after : AppState := settle_upstream c1_state "wb-1" layernames

/-- A fresh selection of `"wb-1"` whose entries are still Pending. -/
def c2_state : AppState := { wb_id_dict := [("wb-1", (10, 20))] }

/-- Two full synchronization passes run before the key's fetch resolves. -/
def c2_two_passes : AppState := populate_upstream_sync (populate_upstream_sync c2_state)

/-- A state with `"wb-2"` selected and a stale resolved key `"wb-1"` tracked
with installed overlays. -/
def c3_state : AppState :=
  { wb_id_dict := [("wb-2", (3, 4))],
    upstream_maps := [("merged_geometry", [("wb-1", some 7)]),
                      ("merged_tolines", [("wb-1", some 8)]),
                      ("merged_from_nexus", [("wb-1", some 9)]),
                      ("nexus_circles", [("wb-1", some 10)])],
    registered_layers := [("merged_geometry", RegVal.rkeyed [("wb-1", some 7)]),
                          ("merged_tolines", RegVal.rkeyed [("wb-1", some 8)]),
                          ("merged_from_nexus", RegVal.rkeyed [("wb-1", some 9)]),
                          ("nexus_circles", RegVal.rkeyed [("wb-1", some 10)])],
    lmap := [7, 8, 9, 10] }

/-- One synchronization pass over `c3_state`. -/
def c3_after : AppState := update_selected_sync c3_state

/-- Select `"wb-1"` by click resolution starting from the initial state. -/
def c4_s0 : AppState := interaction_resolve_handler {} 10 20 "wb-1"

/-- Deselect `"wb-1"` again before either in-flight fetch resolves. -/
def c4_s1 : AppState := interaction_resolve_handler c4_s0 10 20 "wb-1"

/-- The stale primary fetch from the first pass resolves. -/
def c4_s2 : AppState := settle_primary c4_s1 [("wb-1", (10, 20))]

/-- The stale derived fetch from the first pass resolves; everything has
settled. -/
def c4_s3 : AppState := settle_upstream c4_s2 "wb-1" layernames

/-- A state in which VPU group `"05"` is active with two cached ids, both
selected. -/
def c5_state : AppState :=
  { wb_id_dict := [("wb-1", (1, 2)), ("wb-2", (3, 4))],
    vpu_selected := [("05", true)],
    vpu_wbids := [("05", [("wb-1", (1, 2)), ("wb-2", (3, 4))])] }

/-- Select `"wb-1"`, then let the pass's primary and derived fetches resolve
(in that order) and run the final re-raise step. -/
def c6_s2 : AppState :=
  settle_upstream (settle_primary (interaction_resolve_handler {} 10 20 "wb-1")
    [("wb-1", (10, 20))]) "wb-1" layernames

/-- The converged state of the pass. -/
def c6_final : AppState := raise_selected c6_s2

/-! ## Claim C1: stale derived results -/

/-- C1 counterexample: `"wb-1"` is no longer in `wb_id_dict` when its derived
fetch resolves, yet the resolution handler installs an overlay for it (handle
0, on the map) and re-creates tracked entries in `upstream_maps` and
`registered_layers` — there is no membership re-check in the handler. -/
theorem C1_counterexample :
    jhas c1_state.wb_id_dict "wb-1" = false ∧
    c1_after.inflight = [] ∧
    jget (inner_of c1_after "merged_geometry") "wb-1" = some (some 0) ∧
    (0 : Nat) ∈ c1_after.lmap ∧
    jhas (reg_inner c1_after.registered_layers "merged_geometry") "wb-1" = true ∧
    jhas (inner_of c1_after "nexus_circles") "wb-1" = true := by
  decide

/-! ## Claim C2: duplicate fetch issuance -/

/-- C2 counterexample: with `"wb-1"` seeded as Pending and its first fetch
unresolved, a second synchronization pass issues a second fetch — two
`/get_upstream_geojson_from_wbids` requests for the key in total, not one. -/
theorem C2_counterexample :
    jget (inner_of (populate_upstream_sync c2_state) "merged_geometry") "wb-1" = some none ∧
    ev_count (Event.issue_upstream "wb-1") c2_two_passes.events = 2 ∧
    c2_two_passes.inflight = [Request.upstream "wb-1", Request.upstream "wb-1"] := by
  decide

/-! ## Claim C3: teardown versus fetch issuance order -/

/-- C3 counterexample: in a pass over a state with a stale tracked key, the
batched primary fetch is issued (event index 1) before the teardown of the
stale key runs (event index 2): teardown does not precede every fetch of the
pass. -/
theorem C3_counterexample :
    Event.issue_primary ∈ c3_after.events ∧
    Event.teardown_entry "merged_geometry" "wb-1" ∈ c3_after.events ∧
    pos_in c3_after.events Event.issue_primary = 1 ∧
    pos_in c3_after.events (Event.teardown_entry "merged_geometry" "wb-1") = 2 := by
  decide

/-! ## Claim C4: derived key sets at quiescence -/

/-- C4 counterexample: select `"wb-1"`, deselect it before its fetches
resolve, then let both stale fetches settle. All in-flight fetches have
settled, the Selection State is empty, yet every derived layer map tracks
`"wb-1"`. -/
theorem C4_counterexample :
    c4_s3.inflight = [] ∧
    c4_s3.wb_id_dict = [] ∧
    jkeys (inner_of c4_s3 "merged_geometry") = ["wb-1"] ∧
    jkeys (inner_of c4_s3 "merged_tolines") = ["wb-1"] ∧
    jkeys (inner_of c4_s3 "merged_from_nexus") = ["wb-1"] ∧
    jkeys (inner_of c4_s3 "nexus_circles") = ["wb-1"] := by
  decide

/-! ## Claim C5: one synchronization pass per Selection State transition -/

/-- C5: deactivating an active VPU group removes its cached ids from the
Selection State and clears the mark but triggers no synchronization pass at
all (`select_wbids_in_vpu` returns before calling `update_selected`, main.js
line 536) and issues no request — whereas a click resolution and a VPU
activation resolution each trigger exactly one pass. -/
theorem C5_bulk_deactivation_skips_sync :
    (select_wbids_in_vpu_sync c5_state "05").wb_id_dict = [] ∧
    jhas (select_wbids_in_vpu_sync c5_state "05").vpu_selected "05" = false ∧
    ev_count Event.call_update_selected (select_wbids_in_vpu_sync c5_state "05").events = 0 ∧
    (select_wbids_in_vpu_sync c5_state "05").inflight = [] ∧
    ev_count Event.call_update_selected
      (vpu_resolve_handler { } "05" [("wb-1", (1, 2))]).events = 1 ∧
    ev_count Event.call_update_selected
      (interaction_resolve_handler { } 1 2 "wb-1").events = 1 := by
  decide

/-! ## Claim C6: z-order after convergence -/

/-- C6 counterexample: after a pass converges (both fetches settled, final
re-raise run) the primary overlay (handle 0) is on top, but among the derived
overlays the `merged_tolines` overlay (handle 2) sits below the
`nexus_circles` overlay (handle 4): the claimed priority (flowlines above
nexus markers) does not hold. -/
theorem C6_counterexample :
    c6_final.inflight = [] ∧
    c6_final.selected_wb_layer = some 0 ∧
    jget (inner_of c6_final "merged_tolines") "wb-1" = some (some 2) ∧
    jget (inner_of c6_final "nexus_circles") "wb-1" = some (some 4) ∧
    c6_final.lmap = [1, 2, 3, 4, 0] ∧
    pos_in c6_final.lmap 2 < pos_in c6_final.lmap 4 := by
  decide

theorem upstream_install_other (key : Key) (data : List Key) (s : AppState)
    (name : Key) (h : name ∉ data) :
    jget (upstream_install key data s).upstream_maps name = jget s.upstream_maps name := by
  induction data generalizing s with
  | nil => rfl
  | cons n rest ih =>
      simp only [upstream_install]
      rw [ih _ fun hm => h (List.mem_cons_of_mem _ hm)]
      exact jget_jset_ne _ _ _ _
        fun hh => h (by rw [hh]; exact List.mem_cons_self _ _)

theorem upstream_install_lmap_mono (key : Key) (data : List Key) (s : AppState)
    (h : Nat) (hm : h ∈ s.lmap) : h ∈ (upstream_install key data s).lmap := by
  induction data generalizing s with
  | nil => exact hm
  | cons n rest ih =>
      simp only [upstream_install]
      exact ih _ (List.mem_append_left _ hm)

theorem upstream_install_mem (key : Key) :
    ∀ (data : List Key), data.Nodup → ∀ (s : AppState), ∀ name ∈ data, ∃ h,
      jget (inner_of (upstream_install key data s) name) key = some (some h) ∧
      h ∈ (upstream_install key data s).lmap := by
  intro data
  induction data with
  | nil =>
      intro _ s name hname
      exact absurd hname (List.not_mem_nil _)
  | cons n rest ih =>
      intro hnd s name hname
      rcases List.mem_cons.1 hname with rfl | hmem
      · have hnotin : name ∉ rest := (List.nodup_cons.1 hnd).1
        refine ⟨s.next_handle, ?_, ?_⟩
        · simp only [upstream_install, inner_of]
          rw [upstream_install_other key rest _ name hnotin]
          simp [jget_jset_self]
        · simp only [upstream_install]
          exact upstream_install_lmap_mono key rest _ _
            (List.mem_append_right _ (by simp))
      · exact ih (List.nodup_cons.1 hnd).2 _ name hmem

/-- C1 amended: when a per-key derived fetch resolves, the handler installs
one overlay per returned family on the map and re-creates the tracked entries
for the key in `upstream_maps` and `registered_layers` regardless of whether
the key is still in `wb_id_dict` — a stale key's entries are removed only by
the teardown of a later pass, not by the resolution handler. -/
theorem C1_stale_results_installed (s : AppState) (key : Key) :
    ∀ name ∈ layernames, ∃ h,
      jget (inner_of (upstream_resolve_handler s key layernames) name) key = some (some h) ∧
      h ∈ (upstream_resolve_handler s key layernames).lmap := by
  simp only [upstream_resolve_handler]
  exact upstream_install_mem key layernames (by decide) _

/-- C1 witness: the amended handler behaviour evaluated at the deselected-key
state. -/
theorem C1_stale_results_installed_witness :
    ∃ h,
      jget (inner_of (upstream_resolve_handler c1_state "wb-1" layernames)
        "merged_tolines") "wb-1" = some (some h) ∧
      h ∈ (upstream_resolve_handler c1_state "wb-1" layernames).lmap :=
  C1_stale_results_installed c1_state "wb-1" "merged_tolines" (by decide)

theorem ev_count_append (e : Event) (a b : List Event) :
    ev_count e (a ++ b) = ev_count e a + ev_count e b := by
  induction a with
  | nil => simp [ev_count]
  | cons x t ih => simp [ev_count, ih]; ring

/-- The issue events produced by the fetch-issuance loop over a snapshot. -/
def issued_events (es : List (Key × Option Nat)) : List Event :=
  es.filterMap fun kv =>
    if kv.2 = none then some (Event.issue_upstream kv.1) else none

theorem issue_entries_events (es : List (Key × Option Nat)) (s : AppState) :
    (issue_entries es s).events = s.events ++ issued_events es := by
  induction es generalizing s with
  | nil => simp [issue_entries, issued_events]
  | cons kv t ih =>
      obtain ⟨k, v⟩ := kv
      by_cases hv : v = none
      · subst hv
        simp [issue_entries, ih, issued_events]
      · simp [issue_entries, hv, ih, issued_events]

theorem ev_count_issued_absent (key : Key) (es : List (Key × Option Nat))
    (h : key ∉ es.map Prod.fst) :
    ev_count (Event.issue_upstream key) (issued_events es) = 0 := by
  induction es with
  | nil => rfl
  | cons kv t ih =>
      obtain ⟨k, v⟩ := kv
      have hk : k ≠ key := fun hh => h (by simp [hh])
      have iht := ih fun hh => h (by simp [hh])
      simp only [issued_events, List.filterMap_cons] at iht ⊢
      by_cases hv : v = none
      · subst hv
        simp [ev_count, hk, iht]
      · simp [ev_count, hv, iht]

theorem ev_count_issued (key : Key) (es : List (Key × Option Nat))
    (hnd : (es.map Prod.fst).Nodup) :
    ev_count (Event.issue_upstream key) (issued_events es) =
      if jget es key = some none then 1 else 0 := by
  induction es with
  | nil => rfl
  | cons kv t ih =>
      obtain ⟨k, v⟩ := kv
      have hnd' : (t.map Prod.fst).Nodup := (List.nodup_cons.1 hnd).2
      have iht := ih hnd'
      by_cases hk : k = key
      · subst hk
        have habs : k ∉ t.map Prod.fst := (List.nodup_cons.1 hnd).1
        have habs2 := ev_count_issued_absent k t habs
        simp only [issued_events, List.filterMap_cons] at habs2 ⊢
        by_cases hv : v = none
        · subst hv
          simp [ev_count, jget, habs2]
        · have hng : jget t k = none := by
            cases hg : jget t k with
            | none => rfl
            | some w => exact absurd (by simpa [jkeys] using jget_mem_keys t k w hg) habs
          simp [ev_count, hv, jget, habs2, hng]
      · simp only [issued_events, List.filterMap_cons] at iht ⊢
        by_cases hv : v = none
        · subst hv
          simp [ev_count, hk, jget, iht, Ne.symm hk]
        · simp [ev_count, hk, hv, jget, iht, Ne.symm hk]

/-- C2 amended: the fetch-issuance step of a synchronization pass issues
exactly one `/get_upstream_geojson_from_wbids` fetch for every key whose
tracked entry is still Pending (`null`) — entries already holding a resolved
handle are skipped, but a Pending entry does not suppress re-issuance, so a
second pass that reaches issuance before the key's first fetch resolves
issues a second fetch (two in total, one per pass). -/
theorem C2_pending_reissued (s : AppState) (key : Key)
    (hnd : (jkeys (inner_of s "merged_geometry")).Nodup) :
    ev_count (Event.issue_upstream key) (issue_upstream_fetches s).events =
      ev_count (Event.issue_upstream key) s.events +
        (if jget (inner_of s "merged_geometry") key = some none then 1 else 0) := by
  unfold issue_upstream_fetches
  rw [issue_entries_events, ev_count_append, ev_count_issued key _ hnd]

/-- C2 witness: the amended issuance count evaluated at the
single-Pending-key pass state. -/
theorem C2_pending_reissued_witness :
    ev_count (Event.issue_upstream "wb-1")
      (issue_upstream_fetches (populate_upstream_sync c2_state)).events =
    ev_count (Event.issue_upstream "wb-1") (populate_upstream_sync c2_state).events +
      (if jget (inner_of (populate_upstream_sync c2_state) "merged_geometry") "wb-1" =
          some none then 1 else 0) :=
  C2_pending_reissued (populate_upstream_sync c2_state) "wb-1" (by decide)

theorem pos_in_lt_length {α : Type} [DecidableEq α] (l : List α) (x : α)
    (h : x ∈ l) : pos_in l x < l.length := by
  induction l with
  | nil => exact absurd h (List.not_mem_nil _)
  | cons y t ih =>
      by_cases hy : y = x
      · simp [pos_in, hy]
      · have hx : x ∈ t := by
          rcases List.mem_cons.1 h with hh | hh
          · exact absurd hh.symm hy
          · exact hh
        simp only [pos_in, hy, if_false, List.length_cons]
        exact Nat.succ_lt_succ (ih hx)

theorem pos_in_append_mem {α : Type} [DecidableEq α] (l l2 : List α) (x : α)
    (h : x ∈ l) : pos_in (l ++ l2) x = pos_in l x := by
  induction l with
  | nil => exact absurd h (List.not_mem_nil _)
  | cons y t ih =>
      by_cases hy : y = x
      · simp [pos_in, hy]
      · have hx : x ∈ t := by
          rcases List.mem_cons.1 h with hh | hh
          · exact absurd hh.symm hy
          · exact hh
        simp [pos_in, hy, ih hx]

theorem pos_in_append_self {α : Type} [DecidableEq α] (l : List α) (x : α)
    (h : x ∉ l) : pos_in (l ++ [x]) x = l.length := by
  induction l with
  | nil => simp [pos_in]
  | cons y t ih =>
      have hy : y ≠ x := fun hh => h (by simp [hh])
      have ht : x ∉ t := fun hh => h (List.mem_cons_of_mem _ hh)
      simp [pos_in, hy, ih ht]

/-- C6 amended: the convergence step enforces only the top of the priority
order — after the final re-raise, the primary selected-geometry overlay sits
strictly above every other overlay on the map; the relative order among the
derived overlays themselves is their installation order and is not
re-arranged by the pass. -/
theorem C6_selected_raised_on_top (s : AppState) (h : Nat)
    (hsel : s.selected_wb_layer = some h) (hmem : h ∈ s.lmap)
    (hnd : s.lmap.Nodup) :
    (raise_selected s).lmap = s.lmap.erase h ++ [h] ∧
    ∀ x ∈ (raise_selected s).lmap, x ≠ h →
      pos_in (raise_selected s).lmap x < pos_in (raise_selected s).lmap h := by
  have hl : (raise_selected s).lmap = s.lmap.erase h ++ [h] := by
    simp only [raise_selected, hsel]
    rw [if_pos hmem]
  refine ⟨hl, ?_⟩
  intro x hx hne
  have hnh : h ∉ s.lmap.erase h := hnd.not_mem_erase
  have hxe : x ∈ s.lmap.erase h := by
    rw [hl] at hx
    rcases List.mem_append.1 hx with h1 | h1
    · exact h1
    · exact absurd (by simpa using h1) hne
  rw [hl, pos_in_append_mem _ _ _ hxe, pos_in_append_self _ _ hnh]
  exact pos_in_lt_length _ _ hxe

/-- C6 witness: the amended re-raise property evaluated on the converged
single-selection trace. -/
theorem C6_selected_raised_on_top_witness :
    (raise_selected c6_s2).lmap = c6_s2.lmap.erase 0 ++ [0] :=
  (C6_selected_raised_on_top c6_s2 0 (by decide) (by decide) (by decide)).1

/-! ## Stage lemmas for the synchronization pass (claims C3 and C4) -/

theorem foldl_preserve {β γ : Type} (proj : AppState → γ) (f : AppState → β → AppState)
    (hf : ∀ s b, proj (f s b) = proj s) :
    ∀ (l : List β) (s : AppState), proj (l.foldl f s) = proj s := by
  intro l
  induction l with
  | nil => intro s; rfl
  | cons b t ih =>
      intro s
      rw [List.foldl_cons, ih, hf]

theorem teardown_step_dict (lname key : Key) (v : Option Nat) (s : AppState) :
    (teardown_step lname key v s).wb_id_dict = s.wb_id_dict := rfl

theorem teardown_step_inner_self (lname key : Key) (v : Option Nat) (s : AppState) :
    inner_of (teardown_step lname key v s) lname = jdel (inner_of s lname) key := by
  simp [teardown_step, inner_of, jget_jset_self]

theorem teardown_step_other (lname key : Key) (v : Option Nat) (s : AppState)
    (l' : Key) (h : l' ≠ lname) :
    jget (teardown_step lname key v s).upstream_maps l' = jget s.upstream_maps l' :=
  jget_jset_ne _ _ _ _ h

theorem teardown_step_events (lname key : Key) (v : Option Nat) (s : AppState) :
    (teardown_step lname key v s).events = s.events ++ [Event.teardown_entry lname key] := rfl

theorem seed_step_dict (lname key : Key) (s : AppState) :
    (seed_step lname key s).wb_id_dict = s.wb_id_dict := rfl

theorem seed_step_inner_self (lname key : Key) (s : AppState) :
    inner_of (seed_step lname key s) lname = inner_of s lname ++ [(key, none)] := by
  simp [seed_step, inner_of, jget_jset_self]

theorem seed_step_other (lname key : Key) (s : AppState) (l' : Key) (h : l' ≠ lname) :
    jget (seed_step lname key s).upstream_maps l' = jget s.upstream_maps l' :=
  jget_jset_ne _ _ _ _ h

theorem seed_step_events (lname key : Key) (s : AppState) :
    (seed_step lname key s).events = s.events ++ [Event.seed_entry lname key] := rfl

theorem teardown_entries_dict (lname : Key) (es : List (Key × Option Nat)) (s : AppState) :
    (teardown_entries lname es s).wb_id_dict = s.wb_id_dict := by
  induction es generalizing s with
  | nil => rfl
  | cons kv t ih =>
      obtain ⟨key, v⟩ := kv
      simp only [teardown_entries]
      rw [ih]
      by_cases hc : jhas s.wb_id_dict key = true
      · rw [if_pos hc]
      · rw [if_neg hc, teardown_step_dict]

theorem teardown_entries_other (lname : Key) (es : List (Key × Option Nat)) (s : AppState)
    (l' : Key) (h : l' ≠ lname) :
    jget (teardown_entries lname es s).upstream_maps l' = jget s.upstream_maps l' := by
  induction es generalizing s with
  | nil => rfl
  | cons kv t ih =>
      obtain ⟨key, v⟩ := kv
      simp only [teardown_entries]
      rw [ih]
      by_cases hc : jhas s.wb_id_dict key = true
      · rw [if_pos hc]
      · rw [if_neg hc, teardown_step_other _ _ _ _ _ h]

theorem seed_entries_dict (lname : Key) (es : List (Key × Coord)) (s : AppState) :
    (seed_entries lname es s).wb_id_dict = s.wb_id_dict := by
  induction es generalizing s with
  | nil => rfl
  | cons kv t ih =>
      obtain ⟨key, c⟩ := kv
      simp only [seed_entries]
      rw [ih]
      by_cases hc : jhas (inner_of s lname) key = true
      · rw [if_pos hc]
      · rw [if_neg hc, seed_step_dict]

theorem seed_entries_other (lname : Key) (es : List (Key × Coord)) (s : AppState)
    (l' : Key) (h : l' ≠ lname) :
    jget (seed_entries lname es s).upstream_maps l' = jget s.upstream_maps l' := by
  induction es generalizing s with
  | nil => rfl
  | cons kv t ih =>
      obtain ⟨key, c⟩ := kv
      simp only [seed_entries]
      rw [ih]
      by_cases hc : jhas (inner_of s lname) key = true
      · rw [if_pos hc]
      · rw [if_neg hc, seed_step_other _ _ _ _ h]

theorem issue_entries_dict (es : List (Key × Option Nat)) (s : AppState) :
    (issue_entries es s).wb_id_dict = s.wb_id_dict := by
  induction es generalizing s with
  | nil => rfl
  | cons kv t ih =>
      obtain ⟨key, v⟩ := kv
      simp only [issue_entries]
      rw [ih]
      by_cases hv : v = none
      · rw [if_pos hv]
      · rw [if_neg hv]

theorem issue_entries_upstream (es : List (Key × Option Nat)) (s : AppState) :
    (issue_entries es s).upstream_maps = s.upstream_maps := by
  induction es generalizing s with
  | nil => rfl
  | cons kv t ih =>
      obtain ⟨key, v⟩ := kv
      simp only [issue_entries]
      rw [ih]
      by_cases hv : v = none
      · rw [if_pos hv]
      · rw [if_neg hv]

theorem teardown_entries_has (lname : Key) (es : List (Key × Option Nat)) (s : AppState)
    (k : Key) (hnd : (jkeys (inner_of s lname)).Nodup) :
    jhas (inner_of (teardown_entries lname es s) lname) k =
      (jhas (inner_of s lname) k &&
        (jhas s.wb_id_dict k || decide (k ∉ es.map Prod.fst))) := by
  induction es generalizing s with
  | nil => simp [teardown_entries]
  | cons kv t ih =>
      obtain ⟨key, v⟩ := kv
      simp only [teardown_entries]
      by_cases hc : jhas s.wb_id_dict key = true
      · rw [if_pos hc, ih s hnd]
        by_cases hk : k = key
        · rw [hk, hc]
          simp
        · have hbeq : (k == key) = false := by simp [hk]
          simp [hk, hbeq]
      · rw [if_neg hc]
        have hnd' : (jkeys (inner_of (teardown_step lname key v s) lname)).Nodup := by
          rw [teardown_step_inner_self]
          exact jkeys_jdel_nodup _ _ hnd
        rw [ih _ hnd', teardown_step_inner_self, teardown_step_dict]
        by_cases hk : k = key
        · have hc' : jhas s.wb_id_dict key = false := by
            cases hb : jhas s.wb_id_dict key
            · rfl
            · exact absurd hb hc
          rw [hk]
          simp only [jhas] at hc' ⊢
          rw [jget_jdel_self _ _ hnd]
          simp [hc']
        · have hbeq : (k == key) = false := by simp [hk]
          simp only [jhas]
          rw [jget_jdel_ne _ _ _ hk]
          simp [hk, hbeq]

theorem seed_entries_has (lname : Key) (es : List (Key × Coord)) (s : AppState)
    (k : Key) :
    jhas (inner_of (seed_entries lname es s) lname) k =
      (jhas (inner_of s lname) k || decide (k ∈ es.map Prod.fst)) := by
  induction es generalizing s with
  | nil => simp [seed_entries]
  | cons kv t ih =>
      obtain ⟨key, c⟩ := kv
      simp only [seed_entries]
      by_cases hc : jhas (inner_of s lname) key = true
      · rw [if_pos hc, ih s]
        by_cases hk : k = key
        · rw [hk, hc]
          simp
        · have hbeq : (k == key) = false := by simp [hk]
          simp [hk, hbeq]
      · rw [if_neg hc, ih _, seed_step_inner_self]
        simp only [jhas, jget_append_single]
        by_cases hk : k = key
        · rw [hk]
          cases hb : jget (inner_of s lname) key <;> simp [hb, Option.orElse]
        · cases hb : jget (inner_of s lname) k <;>
            simp [hb, Option.orElse, hk, Ne.symm hk]

theorem jhas_eq_decide_mem {α : Type} (o : JsObj α) (k : Key) :
    jhas o k = decide (k ∈ jkeys o) := by
  by_cases hm : k ∈ jkeys o
  · rw [(jhas_iff_mem_keys o k).2 hm, decide_eq_true hm]
  · have hf : jhas o k = false := by
      cases hb : jhas o k
      · rfl
      · exact absurd ((jhas_iff_mem_keys o k).1 hb) hm
    rw [hf, decide_eq_false hm]

theorem teardown_entries_nodup (lname : Key) (es : List (Key × Option Nat)) (s : AppState)
    (hnd : (jkeys (inner_of s lname)).Nodup) :
    (jkeys (inner_of (teardown_entries lname es s) lname)).Nodup := by
  induction es generalizing s with
  | nil => exact hnd
  | cons kv t ih =>
      obtain ⟨key, v⟩ := kv
      simp only [teardown_entries]
      by_cases hc : jhas s.wb_id_dict key = true
      · rw [if_pos hc]
        exact ih s hnd
      · rw [if_neg hc]
        refine ih _ ?_
        rw [teardown_step_inner_self]
        exact jkeys_jdel_nodup _ _ hnd

theorem teardown_one_dict (s : AppState) (l : Key) :
    (teardown_one s l).wb_id_dict = s.wb_id_dict :=
  teardown_entries_dict l _ s

theorem teardown_one_other (s : AppState) (l l' : Key) (h : l' ≠ l) :
    jget (teardown_one s l).upstream_maps l' = jget s.upstream_maps l' :=
  teardown_entries_other l _ s l' h

theorem teardown_one_has (s : AppState) (l k : Key)
    (hnd : (jkeys (inner_of s l)).Nodup) :
    jhas (inner_of (teardown_one s l) l) k =
      (jhas (inner_of s l) k && jhas s.wb_id_dict k) := by
  rw [teardown_one, teardown_entries_has l _ s k hnd]
  by_cases hmem : jhas (inner_of s l) k = true
  · have hm : k ∈ (inner_of s l).map Prod.fst := by
      have := (jhas_iff_mem_keys (inner_of s l) k).1 hmem
      simpa [jkeys] using this
    rw [hmem]
    simp [hm]
  · have hf : jhas (inner_of s l) k = false := by
      cases hb : jhas (inner_of s l) k
      · rfl
      · exact absurd hb hmem
    rw [hf]
    simp

theorem teardown_one_nodup (s : AppState) (l l' : Key)
    (hnd : (jkeys (inner_of s l')).Nodup) :
    (jkeys (inner_of (teardown_one s l) l')).Nodup := by
  by_cases hll : l' = l
  · rw [hll] at hnd ⊢
    exact teardown_entries_nodup l _ s hnd
  · rw [inner_of, teardown_one_other s l l' hll]
    exact hnd

theorem seed_one_dict (s : AppState) (l : Key) :
    (seed_one s l).wb_id_dict = s.wb_id_dict :=
  seed_entries_dict l _ s

theorem seed_one_other (s : AppState) (l l' : Key) (h : l' ≠ l) :
    jget (seed_one s l).upstream_maps l' = jget s.upstream_maps l' :=
  seed_entries_other l _ s l' h

theorem seed_one_has (s : AppState) (l k : Key) :
    jhas (inner_of (seed_one s l) l) k =
      (jhas (inner_of s l) k || jhas s.wb_id_dict k) := by
  rw [seed_one, seed_entries_has l _ s k, jhas_eq_decide_mem s.wb_id_dict k]
  rfl

theorem fold_teardown_dict (names : List Key) (s : AppState) :
    (names.foldl teardown_one s).wb_id_dict = s.wb_id_dict :=
  foldl_preserve (fun s => s.wb_id_dict) teardown_one
    (fun s b => teardown_one_dict s b) names s

theorem fold_seed_dict (names : List Key) (s : AppState) :
    (names.foldl seed_one s).wb_id_dict = s.wb_id_dict :=
  foldl_preserve (fun s => s.wb_id_dict) seed_one
    (fun s b => seed_one_dict s b) names s

theorem fold_teardown_has (names : List Key) (s : AppState) (l k : Key)
    (hnd : (jkeys (inner_of s l)).Nodup) :
    jhas (inner_of (names.foldl teardown_one s) l) k =
      (jhas (inner_of s l) k &&
        (if l ∈ names then jhas s.wb_id_dict k else true)) := by
  induction names generalizing s with
  | nil => simp
  | cons n rest ih =>
      rw [List.foldl_cons]
      by_cases hln : l = n
      · subst hln
        have hnd' : (jkeys (inner_of (teardown_one s l) l)).Nodup :=
          teardown_one_nodup s l l hnd
        rw [ih _ hnd', teardown_one_has s l k hnd, teardown_one_dict,
          if_pos (List.mem_cons_self l rest)]
        by_cases hmem : l ∈ rest
        · rw [if_pos hmem]
          cases jhas (inner_of s l) k <;> cases jhas s.wb_id_dict k <;> rfl
        · rw [if_neg hmem]
          cases jhas (inner_of s l) k <;> cases jhas s.wb_id_dict k <;> rfl
      · have hinner : inner_of (teardown_one s n) l = inner_of s l := by
          rw [inner_of, teardown_one_other s n l hln]
          rfl
        rw [ih _ (by rw [hinner]; exact hnd), hinner, teardown_one_dict]
        have hif : (if l ∈ n :: rest then jhas s.wb_id_dict k else true) =
            (if l ∈ rest then jhas s.wb_id_dict k else true) := by
          simp [List.mem_cons, hln]
        rw [hif]

theorem fold_seed_has (names : List Key) (s : AppState) (l k : Key) :
    jhas (inner_of (names.foldl seed_one s) l) k =
      (jhas (inner_of s l) k ||
        (if l ∈ names then jhas s.wb_id_dict k else false)) := by
  induction names generalizing s with
  | nil => simp
  | cons n rest ih =>
      rw [List.foldl_cons]
      by_cases hln : l = n
      · subst hln
        rw [ih _, seed_one_has s l k, seed_one_dict,
          if_pos (List.mem_cons_self l rest)]
        by_cases hmem : l ∈ rest
        · rw [if_pos hmem]
          cases jhas (inner_of s l) k <;> cases jhas s.wb_id_dict k <;> rfl
        · rw [if_neg hmem]
          cases jhas (inner_of s l) k <;> cases jhas s.wb_id_dict k <;> rfl
      · have hinner : inner_of (seed_one s n) l = inner_of s l := by
          rw [inner_of, seed_one_other s n l hln]
          rfl
        rw [ih _, hinner, seed_one_dict]
        have hif : (if l ∈ n :: rest then jhas s.wb_id_dict k else false) =
            (if l ∈ rest then jhas s.wb_id_dict k else false) := by
          simp [List.mem_cons, hln]
        rw [hif]

theorem pu_register_upstream (s : AppState) :
    (pu_register s).upstream_maps = s.upstream_maps := rfl

theorem pu_register_dict (s : AppState) :
    (pu_register s).wb_id_dict = s.wb_id_dict := rfl

theorem pu_register_events (s : AppState) :
    (pu_register s).events = s.events := rfl

theorem pu_ensure_dict (s : AppState) :
    (pu_ensure s).wb_id_dict = s.wb_id_dict := by
  unfold pu_ensure
  exact foldl_preserve (fun s => s.wb_id_dict) _
    (fun s b => by dsimp only; split <;> rfl) _ s

theorem pu_ensure_events (s : AppState) :
    (pu_ensure s).events = s.events := by
  unfold pu_ensure
  exact foldl_preserve (fun s => s.events) _
    (fun s b => by dsimp only; split <;> rfl) _ s

theorem foldl_inner_or {β : Type} (l : Key) (f : AppState → β → AppState)
    (hf : ∀ s b, jget (f s b).upstream_maps l = jget s.upstream_maps l ∨
                 jget (f s b).upstream_maps l = some []) :
    ∀ (bs : List β) (s : AppState),
      jget (bs.foldl f s).upstream_maps l = jget s.upstream_maps l ∨
      jget (bs.foldl f s).upstream_maps l = some [] := by
  intro bs
  induction bs with
  | nil => intro s; exact Or.inl rfl
  | cons b t ih =>
      intro s
      rw [List.foldl_cons]
      rcases ih (f s b) with h | h
      · rcases hf s b with h2 | h2
        · exact Or.inl (h.trans h2)
        · exact Or.inr (h.trans h2)
      · exact Or.inr h

theorem pu_ensure_inner (s : AppState) (l : Key) :
    jget (pu_ensure s).upstream_maps l = jget s.upstream_maps l ∨
    jget (pu_ensure s).upstream_maps l = some [] := by
  unfold pu_ensure
  refine foldl_inner_or l _ (fun s b => ?_) _ s
  dsimp only
  split
  · by_cases hb : b = l
    · subst hb
      exact Or.inr (jget_jset_self _ _ _)
    · exact Or.inl (jget_jset_ne _ _ _ _ fun hh => hb hh.symm)
  · exact Or.inl rfl

theorem pu_ensure_inner_nodup (s : AppState) (l : Key)
    (h : (jkeys (inner_of s l)).Nodup) :
    (jkeys (inner_of (pu_ensure s) l)).Nodup := by
  rcases pu_ensure_inner s l with hh | hh
  · rw [inner_of, hh]
    exact h
  · rw [inner_of, hh]
    simp [jkeys]

theorem populate_upstream_sync_eq (s : AppState) (h : s.need_upstream = true) :
    populate_upstream_sync s =
      (if layernames.any
          (fun l => (inner_of (seed (teardown (pu_ensure (pu_register s)))) l).isEmpty)
       then seed (teardown (pu_ensure (pu_register s)))
       else issue_upstream_fetches (seed (teardown (pu_ensure (pu_register s))))) := by
  unfold populate_upstream_sync
  rw [if_neg (by simp [h])]

/-- C4 amended: at a synchronization pass's synchronous completion — after
the teardown and seed steps of `populate_upstream`, with upstream retrieval
enabled — the key set of each of the four derived layer maps equals the
Selection State's key set exactly. (As `C4_counterexample` shows, the
equality need not survive until all in-flight fetches settle: a fetch
resolving after its key's deselection re-creates the entry.) -/
theorem C4_teardown_seed_keysets (s : AppState) (hnu : s.need_upstream = true)
    (hnod : ∀ l, (jkeys (inner_of s l)).Nodup) :
    ∀ l ∈ layernames, ∀ k,
      jhas (inner_of (populate_upstream_sync s) l) k = jhas s.wb_id_dict k := by
  intro l hl k
  have key_fact :
      jhas (inner_of (seed (teardown (pu_ensure (pu_register s)))) l) k =
        jhas s.wb_id_dict k := by
    have hnd2 : (jkeys (inner_of (pu_ensure (pu_register s)) l)).Nodup := by
      refine pu_ensure_inner_nodup (pu_register s) l ?_
      rw [inner_of, pu_register_upstream]
      exact hnod l
    rw [seed, fold_seed_has layernames _ l k, if_pos hl,
      teardown, fold_teardown_has layernames _ l k hnd2, if_pos hl]
    rw [fold_teardown_dict, pu_ensure_dict, pu_register_dict]
    cases jhas (inner_of (pu_ensure (pu_register s)) l) k <;>
      cases jhas s.wb_id_dict k <;> rfl
  rw [populate_upstream_sync_eq s hnu]
  by_cases hg : layernames.any
      (fun l => (inner_of (seed (teardown (pu_ensure (pu_register s)))) l).isEmpty) = true
  · rw [if_pos hg]
    exact key_fact
  · rw [if_neg hg]
    have hiss : (issue_upstream_fetches (seed (teardown (pu_ensure (pu_register s))))).upstream_maps =
        (seed (teardown (pu_ensure (pu_register s)))).upstream_maps := by
      unfold issue_upstream_fetches
      exact issue_entries_upstream _ _
    rw [inner_of, hiss, ← inner_of]
    exact key_fact

/-- C4 witness: the amended key-set equality evaluated after one pass over a
fresh single-key selection. -/
theorem C4_teardown_seed_keysets_witness :
    jhas (inner_of (populate_upstream_sync c2_state) "merged_tolines") "wb-1" =
      jhas c2_state.wb_id_dict "wb-1" :=
  C4_teardown_seed_keysets c2_state (by decide)
    (fun l => by simp [c2_state, inner_of, jget, jkeys]) "merged_tolines" (by decide) "wb-1"

/-! ## Event-phase decomposition of a synchronization pass (claim C3) -/

theorem teardown_entries_trace (lname : Key) (es : List (Key × Option Nat)) (s : AppState) :
    ∃ T, (teardown_entries lname es s).events = s.events ++ T ∧
      ∀ e ∈ T, ∃ l k, e = Event.teardown_entry l k := by
  induction es generalizing s with
  | nil => exact ⟨[], by simp [teardown_entries], by simp⟩
  | cons kv t ih =>
      obtain ⟨key, v⟩ := kv
      simp only [teardown_entries]
      by_cases hc : jhas s.wb_id_dict key = true
      · rw [if_pos hc]
        exact ih s
      · rw [if_neg hc]
        obtain ⟨T, hT, hTall⟩ := ih (teardown_step lname key v s)
        refine ⟨Event.teardown_entry lname key :: T, ?_, ?_⟩
        · rw [hT, teardown_step_events]
          simp
        · intro e he
          rcases List.mem_cons.1 he with rfl | he'
          · exact ⟨lname, key, rfl⟩
          · exact hTall e he'

theorem seed_entries_trace (lname : Key) (es : List (Key × Coord)) (s : AppState) :
    ∃ S, (seed_entries lname es s).events = s.events ++ S ∧
      ∀ e ∈ S, ∃ l k, e = Event.seed_entry l k := by
  induction es generalizing s with
  | nil => exact ⟨[], by simp [seed_entries], by simp⟩
  | cons kv t ih =>
      obtain ⟨key, c⟩ := kv
      simp only [seed_entries]
      by_cases hc : jhas (inner_of s lname) key = true
      · rw [if_pos hc]
        exact ih s
      · rw [if_neg hc]
        obtain ⟨S, hS, hSall⟩ := ih (seed_step lname key s)
        refine ⟨Event.seed_entry lname key :: S, ?_, ?_⟩
        · rw [hS, seed_step_events]
          simp
        · intro e he
          rcases List.mem_cons.1 he with rfl | he'
          · exact ⟨lname, key, rfl⟩
          · exact hSall e he'

theorem fold_events_chain {β : Type} (P : Event → Prop) (f : AppState → β → AppState)
    (hf : ∀ s b, ∃ T, (f s b).events = s.events ++ T ∧ ∀ e ∈ T, P e) :
    ∀ (bs : List β) (s : AppState),
      ∃ T, (bs.foldl f s).events = s.events ++ T ∧ ∀ e ∈ T, P e := by
  intro bs
  induction bs with
  | nil => intro s; exact ⟨[], by simp, by simp⟩
  | cons b t ih =>
      intro s
      rw [List.foldl_cons]
      obtain ⟨T1, h1, h1all⟩ := hf s b
      obtain ⟨T2, h2, h2all⟩ := ih (f s b)
      refine ⟨T1 ++ T2, ?_, ?_⟩
      · rw [h2, h1, List.append_assoc]
      · intro e he
        rcases List.mem_append.1 he with h | h
        · exact h1all e h
        · exact h2all e h

theorem teardown_trace (s : AppState) :
    ∃ T, (teardown s).events = s.events ++ T ∧
      ∀ e ∈ T, ∃ l k, e = Event.teardown_entry l k :=
  fold_events_chain _ teardown_one
    (fun s b => teardown_entries_trace b (inner_of s b) s) layernames s

theorem seed_trace (s : AppState) :
    ∃ S, (seed s).events = s.events ++ S ∧
      ∀ e ∈ S, ∃ l k, e = Event.seed_entry l k :=
  fold_events_chain _ seed_one
    (fun s b => seed_entries_trace b s.wb_id_dict s) layernames s

theorem issued_events_all (es : List (Key × Option Nat)) :
    ∀ e ∈ issued_events es, ∃ k, e = Event.issue_upstream k := by
  intro e he
  rw [issued_events] at he
  obtain ⟨kv, hkv, hmap⟩ := List.mem_filterMap.1 he
  by_cases hv : kv.2 = none
  · rw [if_pos hv] at hmap
    exact ⟨kv.1, (Option.some_inj.1 hmap).symm⟩
  · rw [if_neg hv] at hmap
    exact absurd hmap (by simp)

theorem populate_trace (s : AppState) :
    ∃ T S U, (populate_upstream_sync s).events = s.events ++ T ++ S ++ U ∧
      (∀ e ∈ T, ∃ l k, e = Event.teardown_entry l k) ∧
      (∀ e ∈ S, ∃ l k, e = Event.seed_entry l k) ∧
      (∀ e ∈ U, ∃ k, e = Event.issue_upstream k) := by
  by_cases hnu : s.need_upstream = true
  · rw [populate_upstream_sync_eq s hnu]
    obtain ⟨T, hT, hTall⟩ := teardown_trace (pu_ensure (pu_register s))
    obtain ⟨S, hS, hSall⟩ := seed_trace (teardown (pu_ensure (pu_register s)))
    have hpre : (pu_ensure (pu_register s)).events = s.events := by
      rw [pu_ensure_events, pu_register_events]
    by_cases hg : layernames.any
        (fun l => (inner_of (seed (teardown (pu_ensure (pu_register s)))) l).isEmpty) = true
    · rw [if_pos hg]
      refine ⟨T, S, [], ?_, hTall, hSall, by simp⟩
      rw [hS, hT, hpre]
      simp
    · rw [if_neg hg]
      refine ⟨T, S,
        issued_events (inner_of (seed (teardown (pu_ensure (pu_register s)))) "merged_geometry"),
        ?_, hTall, hSall, issued_events_all _⟩
      unfold issue_upstream_fetches
      rw [issue_entries_events, hS, hT, hpre]
  · have hnu' : s.need_upstream = false := by
      cases hb : s.need_upstream
      · rfl
      · exact absurd hb hnu
    refine ⟨[], [], [], ?_, by simp, by simp, by simp⟩
    unfold populate_upstream_sync
    rw [if_pos hnu']
    simp

/-- C3 amended: within one synchronization pass, the events occur in the
fixed phase order — the pass is invoked, then (when the selection is
non-empty) the batched primary fetch is issued, then the teardown of stale
entries runs, then the Pending seeding, and only then are the per-key derived
fetches issued. Teardown therefore completes before every derived fetch of
the pass, but the batched primary fetch is issued before teardown, not after
it. -/
theorem C3_pass_event_order (s : AppState) :
    ∃ P T S U, (update_selected_sync s).events =
        s.events ++ [Event.call_update_selected] ++ P ++ T ++ S ++ U ∧
      (∀ e ∈ P, e = Event.issue_primary) ∧
      (∀ e ∈ T, ∃ l k, e = Event.teardown_entry l k) ∧
      (∀ e ∈ S, ∃ l k, e = Event.seed_entry l k) ∧
      (∀ e ∈ U, ∃ k, e = Event.issue_upstream k) := by
  obtain ⟨P, hP, hPall⟩ :
      ∃ P, (us_primary (us_mark s)).events = (us_mark s).events ++ P ∧
        ∀ e ∈ P, e = Event.issue_primary := by
    unfold us_primary
    by_cases h : (us_mark s).wb_id_dict.isEmpty = false
    · rw [if_pos h]
      exact ⟨[Event.issue_primary], rfl, by simp⟩
    · rw [if_neg h]
      refine ⟨[], ?_, by simp⟩
      cases hsel : (us_mark s).selected_wb_layer <;> simp [hsel]
  obtain ⟨T, S, U, hTSU, hTall, hSall, hUall⟩ := populate_trace (us_primary (us_mark s))
  refine ⟨P, T, S, U, ?_, hPall, hTall, hSall, hUall⟩
  show (populate_upstream_sync (us_primary (us_mark s))).events = _
  rw [hTSU, hP]
  show (s.events ++ [Event.call_update_selected]) ++ P ++ T ++ S ++ U = _
  simp [List.append_assoc]
